import Mathlib

/-!
Verification development for the JupyterLite JavaScript kernel
(packages/javascript-kernel/src: the display helper, the kernel shell and
the JavaScript executor).

JavaScript strings are modelled as Lean strings; where character-level
scanning matters the model works on the underlying character list
(JS strings are sequences of UTF-16 code units, and every concrete input
considered here is ASCII, where the two notions agree).  JS string
primitives used by the source (startsWith, endsWith, trim, toLowerCase,
split, substring, indexing) are re-implemented below on character lists so
that concrete evaluations reduce well inside the kernel.
-/

namespace JSKernel

/-- JS String.prototype.startsWith on code units. -/
def jsStartsWith (s pre : String) : Bool :=
  pre.data.isPrefixOf s.data

/-- JS String.prototype.endsWith on code units. -/
def jsEndsWith (s suf : String) : Bool :=
  suf.data.isSuffixOf s.data

/-- JS String.prototype.trim (whitespace classes approximated by
Char.isWhitespace). -/
def jsTrimList (cs : List Char) : List Char :=
  ((cs.dropWhile Char.isWhitespace).reverse.dropWhile Char.isWhitespace).reverse

/-- JS String.prototype.trim on strings. -/
def jsTrim (s : String) : String :=
  String.mk (jsTrimList s.data)

/-- JS String.prototype.toLowerCase (ASCII case folding, which covers every
identifier and parser message considered). -/
def jsToLower (s : String) : String :=
  String.mk (s.data.map Char.toLower)

/-- JS String.prototype.split with a single-character separator. -/
def jsSplitChars (sep : Char) : List Char → List (List Char)
  | [] => [[]]
  | c :: cs =>
    match jsSplitChars sep cs with
    | [] => [[]]
    | r :: rs => if c = sep then [] :: r :: rs else (c :: r) :: rs

/-- Substring search: does the needle occur anywhere in the haystack?
Models JS RegExp.test for a plain-text pattern. -/
def listContainsSub (needle : List Char) : List Char → Bool
  | [] => needle.isPrefixOf []
  | c :: cs => needle.isPrefixOf (c :: cs) || listContainsSub needle cs

/-- Remainder of the haystack after the first occurrence of the needle,
or none when the needle does not occur.  Used to model regex patterns of
the shape a.*b (first find a, then find b in what follows). -/
def listFindAfter (needle : List Char) : List Char → Option (List Char)
  | [] => if needle.isPrefixOf ([] : List Char) then some [] else none
  | c :: cs =>
    if needle.isPrefixOf (c :: cs) then some ((c :: cs).drop needle.length)
    else listFindAfter needle cs

/-!
## Module-resolution policy (claim C3)

Embeds JavaScriptExecutor.transformImportSource together with the
IMagicImportsConfig record and its default value from ExecutorConfig.
-/

/-- IMagicImportsConfig from the executor source. -/
structure MagicImportsConfig where
  enabled : Bool
  baseUrl : String
  enableAutoNpm : Bool

/-- The magicImports default installed by ExecutorConfig. -/
def defaultMagicImports : MagicImportsConfig :=
  { enabled := true
    baseUrl := "https://cdn.jsdelivr.net/"
    enableAutoNpm := true }

/-- The noMagicStarts list of transformImportSource. -/
def noMagicStarts : List String :=
  ["http://", "https://", "data:", "file://", "blob:"]

/-- The noEmsEnds list of transformImportSource. -/
def noEmsEnds : List String :=
  [".js", ".mjs", ".cjs", ".wasm", "+esm"]

/-- JavaScriptExecutor.transformImportSource, translated statement by
statement from the source. -/
def transformImportSource (cfg : MagicImportsConfig) (source : String) : String :=
  if !cfg.enabled then source
  else
    let baseUrl :=
      if jsEndsWith cfg.baseUrl "/" then cfg.baseUrl else cfg.baseUrl ++ "/"
    let addEms := !(noEmsEnds.any fun e => jsEndsWith source e)
    let emsExtraEnd :=
      if addEms then (if jsEndsWith source "/" then "+esm" else "/+esm") else ""
    if noMagicStarts.any (fun st => jsStartsWith source st) then source
    else if (["npm/", "gh/"].any fun st => jsStartsWith source st)
        || !cfg.enableAutoNpm then
      baseUrl ++ source ++ emsExtraEnd
    else
      baseUrl ++ "npm/" ++ source ++ emsExtraEnd

/-- Modelled from the spec wording of the module-resolution policy, with the
suffix rule amended to what the source actually does when the specifier
ends in a slash: such a specifier receives the suffix without the extra
slash rather than no suffix.  Written independently of
transformImportSource so the two can be compared. -/
def specResolveImportSource (cfg : MagicImportsConfig) (source : String) : String :=
  if cfg.enabled = false then source
  else if noMagicStarts.any (fun st => jsStartsWith source st) then source
  else
    let base :=
      if jsEndsWith cfg.baseUrl "/" then cfg.baseUrl else cfg.baseUrl ++ "/"
    let suffix :=
      if noEmsEnds.any (fun e => jsEndsWith source e) then ""
      else if jsEndsWith source "/" then "+esm"
      else "/+esm"
    if jsStartsWith source "npm/" || jsStartsWith source "gh/"
        || cfg.enableAutoNpm = false then
      base ++ source ++ suffix
    else
      base ++ "npm/" ++ source ++ suffix

/-!
## Syntax-tree model

The executor parses code with the meriyah parser (a third-party library)
and then walks the resulting ESTree.  The tree is modelled by the fields
the executor actually reads: node type tags, declaration identifier
patterns, import specifiers, and the source offsets of a trailing
expression statement.  Parsing itself is external, so functions that
parse take the parser as an oracle of type ParseOracle.
-/

/-- One property of an ObjectPattern node: prop.key.name, whether
prop.value.type is Identifier, and prop.value.name. -/
structure ObjProp where
  keyName : String
  valueIsIdentifier : Bool
  valueName : String
deriving DecidableEq, Repr

/-- The binding pattern of a declarator (declaration.id in the source). -/
inductive BindingPattern where
  | objectPattern (props : List ObjProp)
  | arrayPattern (elements : List (Option String))
  | identifier (name : String)
deriving DecidableEq, Repr

/-- An import specifier node (node.specifiers elements). -/
inductive ImportSpec where
  | importSpecifier (imported localName : String)
  | importDefaultSpecifier (localName : String)
  | importNamespaceSpecifier (localName : String)
deriving DecidableEq, Repr

/-- A top-level statement node, carrying exactly the fields the executor
reads.  For an ExpressionStatement the executor reads expression.type
(compared against the string AssignmentExpression), expression.start,
expression.end and the end offset of the statement node itself. -/
inductive Node where
  | functionDeclaration (name : String)
  | classDeclaration (name : String)
  | variableDeclaration (declarations : List BindingPattern)
  | importDeclaration (source : String) (specifiers : List ImportSpec)
  | expressionStatement (exprType : String) (exprStart exprEnd stmtEnd : Nat)
  | otherStatement
deriving DecidableEq, Repr

/-- Outcome of running the external parser on a piece of code: the list of
top-level nodes, or a parse error carrying the diagnostic message. -/
def ParseOracle : Type := String → Except String (List Node)

/-!
## Global-scope export pass (claim C2)

Embeds JavaScriptExecutor.addToGlobalThisCode and addToGlobalScope.
-/

/-- JavaScriptExecutor.addToGlobalThisCode with both arguments explicit
(the source defaults identifier to key). -/
def addToGlobalThisCode (key : String) (identifier : String) : String :=
  "globalThis[\"" ++ key ++ "\"] = " ++ identifier ++ ";"

/-- Code the source pushes for one declarator pattern inside a
VariableDeclaration (the declarationType branches of addToGlobalScope). -/
def exportsOfPattern : BindingPattern → List String
  | .objectPattern props =>
    props.foldr
      (fun prop acc =>
        if prop.keyName = "default" then
          if prop.valueIsIdentifier then
            addToGlobalThisCode prop.valueName prop.valueName :: acc
          else acc
        else
          addToGlobalThisCode prop.keyName prop.keyName :: acc)
      []
  | .arrayPattern elements =>
    ((elements.filterMap id).map fun key => addToGlobalThisCode key key)
  | .identifier name => [addToGlobalThisCode name name]

/-- Code pushed for one top-level node in the loop of addToGlobalScope. -/
def exportsOfNode : Node → List String
  | .functionDeclaration name => [addToGlobalThisCode name name]
  | .classDeclaration name => [addToGlobalThisCode name name]
  | .variableDeclaration declarations =>
    declarations.foldr (fun d acc => exportsOfPattern d ++ acc) []
  | _ => []

/-- JavaScriptExecutor.addToGlobalScope: the joined extraCode string. -/
def addToGlobalScope (body : List Node) : String :=
  String.intercalate "\n" (body.foldr (fun n acc => exportsOfNode n ++ acc) [])

/-!
## Implicit-result pass (claim C1)

Embeds JavaScriptExecutor.handleLastStatement and the withReturn flag of
makeAsyncFromCode.  Code is handled as its character list so that the
offset arithmetic (substring and indexing) is explicit.
-/

/-- Result triple of handleLastStatement. -/
structure HandleLastResult where
  withReturn : Bool
  modifiedUserCode : List Char
  extraReturnCode : String
deriving DecidableEq, Repr

/-- The semicolon scan of handleLastStatement: does any position i with
first ≤ i < last hold the character ; in the code?  Positions beyond the
end of the code hold no character (JS indexing yields undefined there). -/
def semicolonBetween (code : List Char) (first last : Nat) : Bool :=
  (List.range' first (last - first)).any fun i => code.get? i = some ';'

/-- JavaScriptExecutor.handleLastStatement. -/
def handleLastStatement (code : List Char) (body : List Node) : HandleLastResult :=
  match body.getLast? with
  | none => ⟨false, code, ""⟩
  | some lastNode =>
    match lastNode with
    | .expressionStatement exprType exprStart exprEnd stmtEnd =>
      if exprType ≠ "AssignmentExpression" then
        if !semicolonBetween code exprEnd stmtEnd then
          ⟨true,
           code.take exprStart ++ code.drop exprEnd,
           "return [" ++ String.mk ((code.drop exprStart).take (exprEnd - exprStart)) ++ "];"⟩
        else ⟨false, code, ""⟩
      else ⟨false, code, ""⟩
    | _ => ⟨false, code, ""⟩

/-- The withReturn flag returned by makeAsyncFromCode: false for empty
code (the early return), otherwise the flag computed by
handleLastStatement on the parsed body. -/
def makeAsyncWithReturn (code : List Char) (body : List Node) : Bool :=
  if code.length = 0 then false
  else (handleLastStatement code body).withReturn

/-!
## Import extraction (claim C8)

Embeds JavaScriptExecutor.extractImports.  The namedImports record is an
insertion-ordered string map, modelled as an association list where
assignment overwrites in place.
-/

/-- JS object property assignment m[k] = v on an insertion-ordered map:
overwrite in place when the key exists, append otherwise. -/
def setKey (m : List (String × String)) (k v : String) : List (String × String) :=
  match m with
  | [] => [(k, v)]
  | (k0, v0) :: rest =>
    if k0 = k then (k0, v) :: rest else (k0, v0) :: setKey rest k v

/-- IImportInfo from the executor source. -/
structure ImportInfo where
  source : String
  url : String
  defaultImport : Option String
  namespaceImport : Option String
  namedImports : List (String × String)
deriving DecidableEq, Repr

/-- The specifier loop of extractImports building one IImportInfo. -/
def buildImportInfo (cfg : MagicImportsConfig) (src : String)
    (specifiers : List ImportSpec) : ImportInfo :=
  specifiers.foldl
    (fun info s =>
      match s with
      | .importDefaultSpecifier localName => { info with defaultImport := some localName }
      | .importNamespaceSpecifier localName => { info with namespaceImport := some localName }
      | .importSpecifier imported localName =>
        if imported = "default" then { info with defaultImport := some localName }
        else { info with namedImports := setKey info.namedImports imported localName })
    { source := src
      url := transformImportSource cfg src
      defaultImport := none
      namespaceImport := none
      namedImports := [] }

/-- JavaScriptExecutor.extractImports: empty code yields no imports, parse
failure is swallowed into an empty list, otherwise the ImportDeclaration
nodes of the body are collected in order. -/
def extractImports (cfg : MagicImportsConfig) (parse : ParseOracle)
    (code : String) : List ImportInfo :=
  if code.length = 0 then []
  else
    match parse code with
    | .error _ => []
    | .ok body =>
      body.foldr
        (fun n acc =>
          match n with
          | .importDeclaration src specifiers => buildImportInfo cfg src specifiers :: acc
          | _ => acc)
        []

/-!
## Value presenter (claims C4, C5, C9)

Embeds JavaScriptExecutor.getMimeBundle and getCustomMimeBundle.  A
runtime JavaScript value is modelled by the observations those two
functions make of it:
* its typeof class (the constructors of JSVal below);
* for objects and functions, the behaviour of the eight probed
  presentation hooks.  Reading a hook property runs a getter, which may
  throw; the source does NOT wrap those reads in try/catch, so a read is
  modelled as part of the slot (getterThrows).  Calling a hook is wrapped
  in try/catch in the source, so a call result is ok-or-caught
  (fnThrows / fnReturns...).
* for objects, an instanceof classification (JSTag) carrying the fields
  each branch reads; sub-computations the source wraps in try/catch
  (entry stringification, canvas toDataURL, array/object previews) are
  modelled as Except-valued observations of the object.
Exceptions escaping getMimeBundle are the error case of the returned
Except.  MIME bundle payloads are modelled as strings (a rendering);
no claim depends on payload structure, only on keys and on the string
payloads of the function branch.
-/

/-- A bundle: insertion-ordered map from media type to rendered payload. -/
abbrev Bundle := List (String × String)

/-- Behaviour of the _toMime slot of a value: absent (not a function),
a getter that throws on read, a function that throws when called, a
function returning a non-object (falls through), or a function returning
an object, used verbatim as the bundle. -/
inductive MimeHookSlot where
  | absent
  | getterThrows
  | fnThrows
  | fnReturnsNonObject
  | fnReturnsBundle (b : Bundle)
deriving Repr

/-- Behaviour of a string-producing hook slot (_toHtml, _toSvg, _toPng,
_toJpeg, _toMarkdown, _toLatex). -/
inductive StrHookSlot where
  | absent
  | getterThrows
  | fnThrows
  | fnReturnsNonString
  | fnReturnsString (s : String)
deriving Repr

/-- Behaviour of the inspect hook slot. -/
inductive InspectSlot where
  | absent
  | getterThrows
  | fnThrows
  | fnReturns (s : String)
deriving Repr

/-- The eight probed hook slots of a value. -/
structure HookSet where
  toMime : MimeHookSlot
  toHtml : StrHookSlot
  toSvg : StrHookSlot
  toPng : StrHookSlot
  toJpeg : StrHookSlot
  toMarkdown : StrHookSlot
  toLatex : StrHookSlot
  inspectHook : InspectSlot
deriving Repr

/-- A HookSet with every slot absent. -/
def noHooks : HookSet :=
  ⟨.absent, .absent, .absent, .absent, .absent, .absent, .absent, .absent⟩

/-- Behaviour of the data field probed by the already-a-bundle check of
the generic-object branch. -/
inductive DataSlot where
  | absent
  | getterThrows
  | nonObject
  | objectData (b : Bundle)
deriving Repr

/-- Classification of an object value by the instanceof / isArray /
isView chain of getMimeBundle, carrying the fields each branch reads.
Operations of a branch that the source leaves outside any try/catch and
that can throw are Except-valued observations: for an Error the read of
the stack property (a getter may throw) and the toString call invoked
when the stack is falsy, and for a Date the toISOString call, which
throws a RangeError on an invalid Date. -/
inductive JSTag where
  | errorObj (stack : Except Unit (Option String)) (toStr : Except Unit String)
      (name message : String)
  | dateObj (iso : Except Unit String)
  | regexpObj (reprText : String)
  | mapObj (size : Nat) (entriesText : Except Unit String)
  | setObj (size : Nat) (itemsText : Except Unit String)
  | canvasElem (png : Except Unit String) (width height : Nat) (outerHTML : String)
  | domElem (outerHTML : String)
  | arrayObj (length : Nat) (preview : Except Unit String)
  | typedArrayObj (ctorName : String) (length : Nat)
  | promiseObj
  | plainObj (dataSlot : DataSlot) (preview : Except Unit String)
      (ctorName : String) (numProps : Nat)
deriving Repr

/-- An object value as observed by the presenter.  strConv is the result
of the String(value) conversion (the custom text/plain fallback runs it
outside any try/catch, and an overridden toString may throw, so it is
Except-valued); strRepr is the opaque rendering standing in for the
value itself where it is embedded as a JSON payload (never a throw
point). -/
structure JSObj where
  hooks : HookSet
  strConv : Except Unit String
  strRepr : String
  tag : JSTag
deriving Repr

/-- A runtime value as observed by the presenter.  Functions carry a hook
set too: JS functions are objects and may expose the hook properties,
which is what claim C9 is about. -/
inductive JSVal where
  | vNull
  | vUndefined
  | vString (s : String)
  | vNumber (rendered : String)
  | vBool (b : Bool)
  | vSymbol (rendered : String)
  | vBigInt (digits : String)
  | vFunction (name : String) (src : String) (hooks : HookSet)
  | vObject (o : JSObj)
deriving Repr

/-- A single quote character (written by code point to keep source
scanning simple). -/
def sq : String := String.singleton (Char.ofNat 39)

/-- One character of the replacement table of JavaScriptExecutor.escapeHtml. -/
def escapeHtmlChar (c : Char) : String :=
  if c = '&' then "&amp;"
  else if c = '<' then "&lt;"
  else if c = '>' then "&gt;"
  else if c = '"' then "&quot;"
  else if c = Char.ofNat 39 then "&#39;"
  else String.singleton c

/-- JavaScriptExecutor.escapeHtml. -/
def escapeHtml (s : String) : String :=
  String.join (s.data.map escapeHtmlChar)

/-- One string-hook probe of getCustomMimeBundle: the property read may
throw (uncaught); a call that throws is caught and skipped; a string
result is stored under the given key and marks hasCustomOutput. -/
def probeStrHook (slot : StrHookSlot) (key : String) (st : Bundle × Bool) :
    Except Unit (Bundle × Bool) :=
  match slot with
  | .getterThrows => .error ()
  | .fnReturnsString s => .ok (setKey st.1 key s, true)
  | _ => .ok st

/-- The uncaught String(value) text/plain assignment of the custom
bundle fallback, which the source runs outside any try/catch when the
inspect hook is missing or when its call threw and was caught. -/
def strConvFallback (b : Bundle) (strConv : Except Unit String) :
    Except Unit (Option Bundle) :=
  match strConv with
  | .error _ => .error ()
  | .ok r => .ok (some (setKey b "text/plain" r))

/-- JavaScriptExecutor.getCustomMimeBundle: ok none models returning null
(no custom output), ok (some b) models returning bundle b, error models
an exception escaping: a throwing getter on a probed property, or the
String(value) conversion throwing in the text/plain fallback. -/
def getCustomMimeBundle (h : HookSet) (strConv : Except Unit String) :
    Except Unit (Option Bundle) :=
  match h.toMime with
  | .getterThrows => .error ()
  | .fnReturnsBundle b => .ok (some b)
  | _ =>
    (probeStrHook h.toHtml "text/html" ([], false)).bind fun st =>
    (probeStrHook h.toSvg "image/svg+xml" st).bind fun st =>
    (probeStrHook h.toPng "image/png" st).bind fun st =>
    (probeStrHook h.toJpeg "image/jpeg" st).bind fun st =>
    (probeStrHook h.toMarkdown "text/markdown" st).bind fun st =>
    (probeStrHook h.toLatex "text/latex" st).bind fun st =>
    if st.2 then
      match h.inspectHook with
      | .getterThrows => .error ()
      | .fnReturns s => .ok (some (setKey st.1 "text/plain" s))
      | _ => strConvFallback st.1 strConv
    else
      .ok none

/-- The function branch of getMimeBundle (a falsy function name, i.e. the
empty string, renders as anonymous). -/
def functionBundle (name src : String) : Bundle :=
  [("text/plain", "[Function: " ++ (if name = "" then "anonymous" else name) ++ "]"),
   ("text/html", "<pre style=\"margin:0\"><code>" ++ escapeHtml src ++ "</code></pre>")]

/-- The instanceof chain and generic-object tail of getMimeBundle, for an
object whose custom probe returned null. -/
def tagBundle (strRepr : String) : JSTag → Except Unit Bundle
  | .errorObj stack toStr _name _message =>
    match stack with
    | .error _ => .error ()
    | .ok (some s) =>
      if s = "" then
        match toStr with
        | .error _ => .error ()
        | .ok t =>
          .ok [("text/plain", t),
               ("application/json", "\x7b name, message, stack \x7d")]
      else
        .ok [("text/plain", s),
             ("application/json", "\x7b name, message, stack \x7d")]
    | .ok none =>
      match toStr with
      | .error _ => .error ()
      | .ok t =>
        .ok [("text/plain", t),
             ("application/json", "\x7b name, message, stack \x7d")]
  | .dateObj iso =>
    match iso with
    | .error _ => .error ()
    | .ok i => .ok [("text/plain", i), ("application/json", i)]
  | .regexpObj reprText => .ok [("text/plain", reprText)]
  | .mapObj size entriesText =>
    match entriesText with
    | .ok s =>
      .ok [("text/plain", "Map(" ++ toString size ++ ") \x7b " ++ s ++ " \x7d"),
           ("application/json", s)]
    | .error _ => .ok [("text/plain", "Map(" ++ toString size ++ ")")]
  | .setObj size itemsText =>
    match itemsText with
    | .ok s =>
      .ok [("text/plain", "Set(" ++ toString size ++ ") \x7b " ++ s ++ " \x7d"),
           ("application/json", s)]
    | .error _ => .ok [("text/plain", "Set(" ++ toString size ++ ")")]
  | .canvasElem png width height outerHTML =>
    match png with
    | .ok b64 =>
      .ok [("image/png", b64),
           ("text/plain",
            "<canvas width=\"" ++ toString width ++ "\" height=\""
              ++ toString height ++ "\">")]
    | .error _ => .ok [("text/plain", outerHTML)]
  | .domElem outerHTML =>
    .ok [("text/html", outerHTML), ("text/plain", outerHTML)]
  | .arrayObj length preview =>
    match preview with
    | .ok p => .ok [("application/json", strRepr), ("text/plain", p)]
    | .error _ => .ok [("text/plain", "Array(" ++ toString length ++ ")")]
  | .typedArrayObj ctorName length =>
    .ok [("text/plain", ctorName ++ "(" ++ toString length ++ ")")]
  | .promiseObj => .ok [("text/plain", "Promise \x7b <pending> \x7d")]
  | .plainObj dataSlot preview ctorName numProps =>
    match dataSlot with
    | .getterThrows => .error ()
    | .objectData b => .ok b
    | _ =>
      match preview with
      | .ok p => .ok [("application/json", strRepr), ("text/plain", p)]
      | .error _ =>
        .ok [("text/plain",
              (if ctorName = "" then "Object" else ctorName)
                ++ " \x7b " ++ toString numProps ++ " properties \x7d")]

/-- JavaScriptExecutor.getMimeBundle.  The branch order of the source is
preserved: null and undefined first, then the custom probe for values of
object type only, then the primitive, function, instanceof and generic
branches (which are disjoint across the JSVal constructors). -/
def getMimeBundle : JSVal → Except Unit Bundle
  | .vNull => .ok [("text/plain", "null")]
  | .vUndefined => .ok [("text/plain", "undefined")]
  | .vObject o =>
    (getCustomMimeBundle o.hooks o.strConv).bind fun custom =>
      match custom with
      | some b => .ok b
      | none => tagBundle o.strRepr o.tag
  | .vString s =>
    if jsStartsWith (jsTrim s) "<" && jsEndsWith (jsTrim s) ">" then
      .ok [("text/html", s), ("text/plain", s)]
    else
      .ok [("text/plain", sq ++ s ++ sq)]
  | .vNumber rendered => .ok [("text/plain", rendered)]
  | .vBool b => .ok [("text/plain", if b then "true" else "false")]
  | .vSymbol rendered => .ok [("text/plain", rendered)]
  | .vBigInt digits => .ok [("text/plain", digits ++ "n")]
  | .vFunction name src _hooks => .ok (functionBundle name src)

/-- A value whose presentation does not adopt a caller-supplied object
verbatim as the bundle: its _toMime hook (if any) does not return an
object, and its data field (if any) does not hold an object. -/
def noVerbatimBundle : JSVal → Bool
  | .vObject o =>
    (match o.hooks.toMime with | .fnReturnsBundle _ => false | _ => true)
      && (match o.tag with
          | .plainObj (.objectData _) _ _ _ => false
          | _ => true)
  | _ => true

/-- Key membership in a bundle. -/
def hasKey (b : Bundle) (k : String) : Bool :=
  b.any fun kv => kv.1 = k

/-!
## Property completion (claim C6)

Embeds JavaScriptExecutor.getAllProperties.  The root object is modelled
by its prototype chain: one ProtoLevel per object on the chain, carrying
the names Object.getOwnPropertyNames yields there and the keys the
for...in loop yields while that object is current.  The localeCompare
tie-breaker is modelled as lexicographic string comparison, and the
JS sort (stable, comparator-consistent) as mergeSort with the comparator
translated to a boolean order.
-/

/-- One object on the prototype chain, as observed by getAllProperties. -/
structure ProtoLevel where
  ownProps : List String
  enumProps : List String
deriving DecidableEq, Repr

/-- One push of the matching helpers in the source: add the property when it
is unseen and satisfies the filter.  Since the seen set and the matches
array always grow together in the source, the matches list itself plays
the role of the seen set. -/
def addUnique (cond : String → Bool) (m : List String) (p : String) : List String :=
  if !(m.contains p) && cond p then m ++ [p] else m

/-- The addMatching helper and the for...in body: case-sensitive prefix
filter. -/
def addMatchingProps (pfx : String) (acc : List String) (props : List String) :
    List String :=
  props.foldl (addUnique fun p => jsStartsWith p pfx) acc

/-- The addCaseInsensitive helper: case-insensitive-only prefix filter. -/
def addCaseInsensitiveProps (pfx : String) (acc : List String) (props : List String) :
    List String :=
  props.foldl
    (addUnique fun p =>
      jsStartsWith (jsToLower p) (jsToLower pfx) && !(jsStartsWith p pfx))
    acc

/-- The two prototype-chain walks of getAllProperties before sorting:
first own properties and for...in keys with the case-sensitive filter,
then own properties again with the case-insensitive-only filter. -/
def collectMatches (levels : List ProtoLevel) (pfx : String) : List String :=
  let phaseA :=
    levels.foldl
      (fun m lv => addMatchingProps pfx (addMatchingProps pfx m lv.ownProps) lv.enumProps)
      []
  levels.foldl (fun m lv => addCaseInsensitiveProps pfx m lv.ownProps) phaseA

/-- Lexicographic comparison of character lists: the model of a
localeCompare result being non-positive. -/
def charListLe : List Char → List Char → Bool
  | [], _ => true
  | _ :: _, [] => false
  | a :: as, b :: bs =>
    if a < b then true
    else if b < a then false
    else charListLe as bs

/-- The sort comparator of getAllProperties as a boolean order: le a b
holds when the comparator returns a non-positive number on (a, b). -/
def matchLe (pfx : String) (a b : String) : Bool :=
  let aExact := jsStartsWith a pfx
  let bExact := jsStartsWith b pfx
  if aExact && !bExact then true
  else if !aExact && bExact then false
  else charListLe a.data b.data

/-- JavaScriptExecutor.getAllProperties: collect unique matches over the
chain, then sort with the exact-before-case-insensitive comparator. -/
def getAllProperties (levels : List ProtoLevel) (pfx : String) : List String :=
  (collectMatches levels pfx).mergeSort (matchLe pfx)

/-!
## Completeness check (claim C7)

Embeds JavaScriptExecutor.isComplete.  The parser is the external
meriyah library, passed as the same oracle used by extractImports; on
failure the message of the oracle is what the regex patterns of the source test.
The regex patterns are literal-text searches (case-insensitive), with
a.*b modelled as ordered occurrence (parser messages are single-line, so
the dot-excludes-newline subtlety does not arise).
-/

/-- Case-insensitive substring test (RegExp.test with an /i literal
pattern). -/
def ciContains (msg pat : String) : Bool :=
  listContainsSub (jsToLower pat).data (jsToLower msg).data

/-- Case-insensitive test for /a.*b/i. -/
def ciSeq2 (msg a b : String) : Bool :=
  match listFindAfter (jsToLower a).data (jsToLower msg).data with
  | some rest => listContainsSub (jsToLower b).data rest
  | none => false

/-- Case-insensitive test for /a.*b.*c/i. -/
def ciSeq3 (msg a b c : String) : Bool :=
  match listFindAfter (jsToLower a).data (jsToLower msg).data with
  | some rest =>
    match listFindAfter (jsToLower b).data rest with
    | some rest2 => listContainsSub (jsToLower c).data rest2
    | none => false
  | none => false

/-- The incompletePatterns array of isComplete, applied to a message. -/
def matchesIncomplete (msg : String) : Bool :=
  ciContains msg "unexpected end of input"
    || ciContains msg "unterminated string"
    || ciContains msg "unterminated template"
    || ciSeq2 msg "unexpected token" "eof"
    || ciSeq3 msg "expected" "but" "end"

/-- The status values of IIsCompleteResult. -/
inductive CompleteStatus where
  | complete
  | incomplete
  | invalid
  | unknown
deriving DecidableEq, Repr

/-- IIsCompleteResult from the executor source. -/
structure IsCompleteResult where
  status : CompleteStatus
  indent : Option String
deriving DecidableEq, Repr

/-- The suggested indent computed inside isComplete for incomplete code:
the leading whitespace of the last line, plus two spaces when the trimmed last
line ends in an opening brace, parenthesis or bracket. -/
def suggestedIndent (code : String) : String :=
  let lines := jsSplitChars '\n' code.data
  let lastLine := (lines.getLast?).getD []
  let currentIndent := lastLine.takeWhile Char.isWhitespace
  let opensBlock :=
    match (jsTrimList lastLine).getLast? with
    | some c => c = Char.ofNat 123 || c = Char.ofNat 40 || c = Char.ofNat 91
    | none => false
  String.mk (if opensBlock then currentIndent ++ [' ', ' '] else currentIndent)

/-- Modelled from the spec: a concrete stand-in for the external meriyah
parser on the three completeness examples, failing on a truncated
function header with an unexpected-token-eof diagnostic and on a stray
closing parenthesis with an unexpected-token diagnostic. -/
def meriyahOracleModel : ParseOracle := fun c =>
  if c = "function f() \x7b" then .error "[1:14]: Unexpected token: eof"
  else if c = ")" then .error "[1:1]: Unexpected token: )"
  else .ok []

/-- JavaScriptExecutor.isComplete. -/
def isComplete (parse : ParseOracle) (code : String) : IsCompleteResult :=
  if (jsTrim code).length = 0 then ⟨.complete, none⟩
  else
    match parse code with
    | .ok _ => ⟨.complete, none⟩
    | .error msg =>
      if matchesIncomplete msg then ⟨.incomplete, some (suggestedIndent code)⟩
      else ⟨.invalid, none⟩

/-!
## Display helper (claim C10)

Embeds the DisplayHelper class.  The mutable fields are a state record;
a display method maps a state to the new state together with the display
data handed to the onDisplay callback, when one is invoked.  The
JSON.stringify call of the json method is the serializer of the host, passed
as a function parameter.
-/

/-- IDisplayData: the payload _sendDisplay builds. -/
structure DisplayData where
  data : Bundle
  metadata : List (String × String)
  transientDisplayId : Option String
deriving Repr

/-- The mutable fields of a DisplayHelper. -/
structure DisplayHelperState where
  hasDisplayCallback : Bool
  displayId : Option String
  result : Option Bundle
deriving Repr

/-- DisplayHelper.getResult. -/
def getResult (st : DisplayHelperState) : Option Bundle :=
  st.result

/-- DisplayHelper.clearResult. -/
def clearResult (st : DisplayHelperState) : DisplayHelperState :=
  { st with result := none }

/-- DisplayHelper._sendDisplay: with a display callback installed the
display data goes to the callback and the state is untouched; without
one the bundle is stored as the result.  A falsy display id (absent or
the empty string) yields no transient field. -/
def sendDisplay (st : DisplayHelperState) (data : Bundle)
    (metadata : Option (List (String × String))) :
    DisplayHelperState × Option DisplayData :=
  let transientId :=
    match st.displayId with
    | some id => if id = "" then none else some id
    | none => none
  let dd : DisplayData := ⟨data, metadata.getD [], transientId⟩
  if st.hasDisplayCallback then (st, some dd)
  else ({ st with result := some data }, none)

/-- DisplayHelper.html. -/
def helperHtml (st : DisplayHelperState) (content : String)
    (metadata : Option (List (String × String))) :
    DisplayHelperState × Option DisplayData :=
  sendDisplay st [("text/html", content), ("text/plain", content)] metadata

/-- DisplayHelper.svg. -/
def helperSvg (st : DisplayHelperState) (content : String)
    (metadata : Option (List (String × String))) :
    DisplayHelperState × Option DisplayData :=
  sendDisplay st [("image/svg+xml", content), ("text/plain", "[SVG Image]")] metadata

/-- DisplayHelper.png. -/
def helperPng (st : DisplayHelperState) (base64Content : String)
    (metadata : Option (List (String × String))) :
    DisplayHelperState × Option DisplayData :=
  sendDisplay st [("image/png", base64Content), ("text/plain", "[PNG Image]")] metadata

/-- DisplayHelper.jpeg. -/
def helperJpeg (st : DisplayHelperState) (base64Content : String)
    (metadata : Option (List (String × String))) :
    DisplayHelperState × Option DisplayData :=
  sendDisplay st [("image/jpeg", base64Content), ("text/plain", "[JPEG Image]")] metadata

/-- DisplayHelper.text. -/
def helperText (st : DisplayHelperState) (content : String)
    (metadata : Option (List (String × String))) :
    DisplayHelperState × Option DisplayData :=
  sendDisplay st [("text/plain", content)] metadata

/-- DisplayHelper.markdown. -/
def helperMarkdown (st : DisplayHelperState) (content : String)
    (metadata : Option (List (String × String))) :
    DisplayHelperState × Option DisplayData :=
  sendDisplay st [("text/markdown", content), ("text/plain", content)] metadata

/-- DisplayHelper.latex. -/
def helperLatex (st : DisplayHelperState) (content : String)
    (metadata : Option (List (String × String))) :
    DisplayHelperState × Option DisplayData :=
  sendDisplay st [("text/latex", content), ("text/plain", content)] metadata

/-- DisplayHelper.json, parameterized by the host JSON serializer
standing for JSON.stringify(content, null, 2). -/
def helperJson (stringify : String → String) (st : DisplayHelperState)
    (content : String) (metadata : Option (List (String × String))) :
    DisplayHelperState × Option DisplayData :=
  sendDisplay st [("application/json", content), ("text/plain", stringify content)]
    metadata

/-- DisplayHelper.mime. -/
def helperMime (st : DisplayHelperState) (mimeBundle : Bundle)
    (metadata : Option (List (String × String))) :
    DisplayHelperState × Option DisplayData :=
  sendDisplay st mimeBundle metadata

end JSKernel

namespace JSKernel

theorem charListLe_total (as bs : List Char) : charListLe as bs || charListLe bs as := by
  induction as generalizing bs with
  | nil => simp [charListLe]
  | cons a as ih =>
    cases bs with
    | nil => simp [charListLe]
    | cons b bs =>
      by_cases h1 : a < b
      · simp [charListLe, h1]
      · by_cases h2 : b < a
        · simp [charListLe, h1, h2]
        · simpa [charListLe, h1, h2] using ih bs

theorem charListLe_trans (as bs cs : List Char)
    (h1 : charListLe as bs) (h2 : charListLe bs cs) : charListLe as cs := by
  induction as generalizing bs cs with
  | nil => simp [charListLe]
  | cons a as ih =>
    cases bs with
    | nil => simp [charListLe] at h1
    | cons b bs =>
      cases cs with
      | nil => simp [charListLe] at h2
      | cons c cs =>
        by_cases hab : a < b
        · by_cases hbc : b < c
          · simp [charListLe, lt_trans hab hbc]
          · by_cases hcb : c < b
            · simp [charListLe, hbc, hcb] at h2
            · have hbc' : b = c := le_antisymm (not_lt.mp hcb) (not_lt.mp hbc)
              subst hbc'
              simp [charListLe, hab]
        · by_cases hba : b < a
          · simp [charListLe, hab, hba] at h1
          · have hab' : a = b := le_antisymm (not_lt.mp hba) (not_lt.mp hab)
            subst hab'
            have h1' : charListLe as bs := by simpa [charListLe] using h1
            by_cases hac : a < c
            · simp [charListLe, hac]
            · by_cases hca : c < a
              · simp [charListLe, hac, hca] at h2
              · have h2' : charListLe bs cs := by simpa [charListLe, hac, hca] using h2
                simpa [charListLe, hac, hca] using ih bs cs h1' h2'

theorem matchLe_total (pfx a b) : matchLe pfx a b || matchLe pfx b a := by
  unfold matchLe
  cases ha : jsStartsWith a pfx <;> cases hb : jsStartsWith b pfx <;>
    simp [charListLe_total]

theorem matchLe_trans (pfx a b c) (h1 : matchLe pfx a b) (h2 : matchLe pfx b c) :
    matchLe pfx a c := by
  unfold matchLe at h1 h2 ⊢
  cases ha : jsStartsWith a pfx <;> cases hb : jsStartsWith b pfx <;>
      cases hc : jsStartsWith c pfx <;>
    simp_all <;> exact charListLe_trans _ _ _ h1 h2

theorem addUnique_nodup (c : String → Bool) (m : List String) (p : String)
    (h : m.Nodup) : (addUnique c m p).Nodup := by
  unfold addUnique
  split
  · rename_i hc
    simp only [Bool.and_eq_true, Bool.not_eq_true'] at hc
    refine List.Nodup.append h (List.nodup_singleton p) ?_
    intro x hx hmem
    simp only [List.mem_singleton] at hmem
    subst hmem
    have hmem' : m.contains x = true := List.elem_eq_true_of_mem hx
    rw [hmem'] at hc
    exact absurd hc.1 (by decide)
  · exact h

theorem foldl_addUnique_nodup (c : String → Bool) (props acc : List String)
    (h : acc.Nodup) : (props.foldl (addUnique c) acc).Nodup := by
  induction props generalizing acc with
  | nil => exact h
  | cons p ps ih => exact ih _ (addUnique_nodup c acc p h)

theorem collectMatches_nodup (levels : List ProtoLevel) (pfx : String) :
    (collectMatches levels pfx).Nodup := by
  unfold collectMatches
  have phaseA : ∀ (ls : List ProtoLevel) (acc : List String), acc.Nodup →
      (ls.foldl (fun m lv =>
        addMatchingProps pfx (addMatchingProps pfx m lv.ownProps) lv.enumProps) acc).Nodup := by
    intro ls
    induction ls with
    | nil => intro acc h; exact h
    | cons lv ls ih =>
      intro acc h
      exact ih _ (foldl_addUnique_nodup _ _ _ (foldl_addUnique_nodup _ _ _ h))
  have phaseB : ∀ (ls : List ProtoLevel) (acc : List String), acc.Nodup →
      (ls.foldl (fun m lv => addCaseInsensitiveProps pfx m lv.ownProps) acc).Nodup := by
    intro ls
    induction ls with
    | nil => intro acc h; exact h
    | cons lv ls ih =>
      intro acc h
      exact ih _ (foldl_addUnique_nodup _ _ _ h)
  exact phaseB _ _ (phaseA _ _ List.nodup_nil)

theorem matchLe_imp (pfx a b : String) (h : matchLe pfx a b = true) :
    (jsStartsWith a pfx = true ∧ jsStartsWith b pfx = false)
    ∨ (jsStartsWith a pfx = jsStartsWith b pfx ∧ charListLe a.data b.data = true) := by
  unfold matchLe at h
  cases ha : jsStartsWith a pfx <;> cases hb : jsStartsWith b pfx <;> simp_all

end JSKernel

namespace JSKernel

/-- C6: over any root object (modelled by its prototype chain) and any
prefix, the completion match list has no duplicates and is ordered with
every case-sensitive prefix match before every case-insensitive-only
match, ties broken lexicographically; in particular over own properties
abc, abd, Abc with prefix ab the result is abc, abd, then Abc. -/
theorem getAllProperties_unique_sorted (levels : List ProtoLevel) (pfx : String) :
    ((getAllProperties levels pfx).Nodup
      ∧ (getAllProperties levels pfx).Pairwise (fun a b =>
          (jsStartsWith a pfx = true ∧ jsStartsWith b pfx = false)
          ∨ (jsStartsWith a pfx = jsStartsWith b pfx ∧ charListLe a.data b.data = true)))
    ∧ getAllProperties [⟨["abc", "abd", "Abc"], []⟩] "ab" = ["abc", "abd", "Abc"] := by
  refine ⟨⟨?_, ?_⟩, ?_⟩
  · exact (List.mergeSort_perm (collectMatches levels pfx) (matchLe pfx)).symm.nodup
      (collectMatches_nodup levels pfx)
  · exact (List.sorted_mergeSort
        (fun a b c h1 h2 => matchLe_trans pfx a b c h1 h2)
        (fun a b => matchLe_total pfx a b)
        (collectMatches levels pfx)).imp
      (fun h => matchLe_imp pfx _ _ h)
  · unfold getAllProperties
    rw [show collectMatches [⟨["abc", "abd", "Abc"], []⟩] "ab"
          = ["abc", "abd", "Abc"] from rfl]
    simp +decide [List.mergeSort, List.merge]

/-- C7: the completeness check returns complete on blank input and on any
input the parser accepts; on a parse failure it returns incomplete with
the computed indent suggestion exactly when the diagnostic matches one of
the fixed truncation patterns, and invalid otherwise. -/
theorem isComplete_spec (parse : ParseOracle) (code : String) :
    ((jsTrim code).length = 0 → isComplete parse code = ⟨.complete, none⟩)
    ∧ ((jsTrim code).length ≠ 0 → ∀ body, parse code = .ok body →
        isComplete parse code = ⟨.complete, none⟩)
    ∧ ((jsTrim code).length ≠ 0 → ∀ msg, parse code = .error msg →
        matchesIncomplete msg = true →
        isComplete parse code = ⟨.incomplete, some (suggestedIndent code)⟩)
    ∧ ((jsTrim code).length ≠ 0 → ∀ msg, parse code = .error msg →
        matchesIncomplete msg = false →
        isComplete parse code = ⟨.invalid, none⟩) := by
  refine ⟨?_, ?_, ?_, ?_⟩
  · intro h; simp [isComplete, h]
  · intro h body hp; simp [isComplete, h, hp]
  · intro h msg hp hm; simp [isComplete, h, hp, hm]
  · intro h msg hp hm; simp [isComplete, h, hp, hm]

theorem isComplete_spec_witness :
    isComplete meriyahOracleModel "function f() \x7b" = ⟨.incomplete, some "  "⟩
    ∧ isComplete meriyahOracleModel ")" = ⟨.invalid, none⟩
    ∧ isComplete meriyahOracleModel "const x = 1;" = ⟨.complete, none⟩ := by
  refine ⟨?_, ?_, ?_⟩
  · have := (isComplete_spec meriyahOracleModel "function f() \x7b").2.2.1
      (by decide) "[1:14]: Unexpected token: eof" (by rfl) (by decide)
    rw [this]
    rfl
  · exact (isComplete_spec meriyahOracleModel ")").2.2.2
      (by decide) "[1:1]: Unexpected token: )" (by rfl) (by decide)
  · exact (isComplete_spec meriyahOracleModel "const x = 1;").2.1 (by decide) [] (by rfl)

end JSKernel

namespace JSKernel

/-- C1: when the last top-level statement is an expression statement that
is not an assignment and no semicolon sits between the end offset of the
expression and the end offset of the statement, makeAsyncFromCode reports
withReturn and handleLastStatement removes the expression text and emits
the trailing code return [expression text]; ; when a semicolon is found
or the expression is an assignment, withReturn is false and the source
text is left unmodified by this pass. -/
theorem makeAsync_lastStatement_spec (code : List Char) (body : List Node)
    (exprType : String) (s e n : Nat)
    (hlast : body.getLast? = some (.expressionStatement exprType s e n)) :
    (exprType ≠ "AssignmentExpression" → semicolonBetween code e n = false →
      code ≠ [] →
      makeAsyncWithReturn code body = true
      ∧ handleLastStatement code body =
          ⟨true, code.take s ++ code.drop e,
           "return [" ++ String.mk ((code.drop s).take (e - s)) ++ "];"⟩)
    ∧ ((semicolonBetween code e n = true ∨ exprType = "AssignmentExpression") →
        makeAsyncWithReturn code body = false
        ∧ handleLastStatement code body = ⟨false, code, ""⟩) := by
  constructor
  · intro hty hsemi hne
    have hh : handleLastStatement code body =
        ⟨true, code.take s ++ code.drop e,
         "return [" ++ String.mk ((code.drop s).take (e - s)) ++ "];"⟩ := by
      unfold handleLastStatement
      rw [hlast]
      simp [hty, hsemi]
    refine ⟨?_, hh⟩
    unfold makeAsyncWithReturn
    rw [if_neg (by simpa using hne), hh]
  · intro hcase
    have hh : handleLastStatement code body = ⟨false, code, ""⟩ := by
      unfold handleLastStatement
      rw [hlast]
      rcases hcase with hsemi | hty
      · by_cases hty : exprType = "AssignmentExpression"
        · simp [hty]
        · simp [hty, hsemi]
      · simp [hty]
    constructor
    · unfold makeAsyncWithReturn
      split
      · rfl
      · rw [hh]
    · exact hh

theorem makeAsync_lastStatement_witness :
    (makeAsyncWithReturn "1 + 1".data [.expressionStatement "BinaryExpression" 0 5 5] = true
      ∧ handleLastStatement "1 + 1".data [.expressionStatement "BinaryExpression" 0 5 5]
          = ⟨true, [], "return [1 + 1];"⟩)
    ∧ (makeAsyncWithReturn "x = 1;".data [.expressionStatement "AssignmentExpression" 0 5 6] = false
      ∧ handleLastStatement "x = 1;".data [.expressionStatement "AssignmentExpression" 0 5 6]
          = ⟨false, "x = 1;".data, ""⟩) :=
  ⟨(makeAsync_lastStatement_spec "1 + 1".data
        [.expressionStatement "BinaryExpression" 0 5 5] "BinaryExpression" 0 5 5 rfl).1
      (by decide) (by decide) (by decide),
   (makeAsync_lastStatement_spec "x = 1;".data
        [.expressionStatement "AssignmentExpression" 0 5 6] "AssignmentExpression" 0 5 6 rfl).2
      (Or.inr rfl)⟩

/-- C2: evaluation of the global-scope export pass at the failing input
const \x7ba, b: c\x7d = obj; .  The source keys the export on the
property key name for every renamed (non-default) property, so it emits
assignments for a and b, not a and c; the identifier b is not bound by
the destructuring, contradicting the specified behaviour. -/
theorem addToGlobalScope_rename_uses_key :
    addToGlobalScope [.variableDeclaration [.objectPattern
        [⟨"a", true, "a"⟩, ⟨"b", true, "c"⟩]]]
      = "globalThis[\"a\"] = a;\nglobalThis[\"b\"] = b;"
    ∧ addToGlobalScope [.variableDeclaration [.objectPattern
        [⟨"a", true, "a"⟩, ⟨"b", true, "c"⟩]]]
      ≠ "globalThis[\"a\"] = a;\nglobalThis[\"c\"] = c;" := by
  refine ⟨rfl, ?_⟩
  decide

/-- C3 counterexample: a specifier ending in a slash does receive a
suffix, namely +esm without the extra slash, contrary to the claim that
it receives none. -/
theorem transformImportSource_slash_counterexample :
    transformImportSource defaultMagicImports "npm/lodash/"
      = "https://cdn.jsdelivr.net/npm/lodash/+esm"
    ∧ transformImportSource defaultMagicImports "npm/lodash/"
      ≠ "https://cdn.jsdelivr.net/npm/lodash/" := by
  refine ⟨rfl, ?_⟩
  decide

/-- C3 (amended): the module-resolution policy agrees everywhere with the
specified policy amended so that a specifier ending in a slash (and not
in one of the recognized module suffixes) receives +esm without the extra
slash; and the bare specifier lodash resolves under the default policy to
a URL ending in npm/lodash/+esm. -/
theorem transformImportSource_spec :
    (∀ cfg source, transformImportSource cfg source = specResolveImportSource cfg source)
    ∧ transformImportSource defaultMagicImports "lodash"
      = "https://cdn.jsdelivr.net/npm/lodash/+esm" := by
  constructor
  · intro cfg source
    obtain ⟨en, base, auto⟩ := cfg
    cases en <;> cases auto <;>
      simp only [transformImportSource, specResolveImportSource, List.any_cons,
        List.any_nil, Bool.not_true, Bool.not_false, Bool.or_false, if_true, if_false,
        Bool.false_eq_true, Bool.true_eq_false] <;>
      split_ifs <;> simp_all
  · rfl

/-- C8: extractImports is a pure function of its inputs, so repeated
calls on identical text agree, and an input the parser rejects yields the
empty sequence rather than an error. -/
theorem extractImports_pure_and_silent (cfg : MagicImportsConfig)
    (parse : ParseOracle) (code : String) :
    extractImports cfg parse code = extractImports cfg parse code
    ∧ (∀ msg, parse code = .error msg → extractImports cfg parse code = []) := by
  refine ⟨rfl, fun msg h => ?_⟩
  unfold extractImports
  split
  · rfl
  · rw [h]

theorem extractImports_witness :
    extractImports defaultMagicImports (fun _ => .error "SyntaxError") "import x from" = [] :=
  (extractImports_pure_and_silent defaultMagicImports
    (fun _ => .error "SyntaxError") "import x from").2 "SyntaxError" rfl

end JSKernel

namespace JSKernel

theorem exceptBindOk {α β : Type} (a : α) (f : α → Except Unit β) :
    (Except.ok a).bind f = f a := rfl

theorem exceptBindErr {α β : Type} (f : α → Except Unit β) :
    (Except.error () : Except Unit α).bind f = Except.error () := rfl

theorem setKey_hasKey (m : List (String × String)) (k v : String) :
    hasKey (setKey m k v) k = true := by
  induction m with
  | nil => simp [setKey, hasKey]
  | cons kv rest ih =>
    unfold setKey
    by_cases h : kv.1 = k
    · simp [h, hasKey]
    · obtain ⟨k0, v0⟩ := kv
      simp only at h
      simp only [if_neg h, hasKey, List.any_cons]
      simp only [hasKey] at ih
      simp [ih, h]

end JSKernel

namespace JSKernel

theorem tagBundle_textPlain (r : String) (t : JSTag) (b : Bundle)
    (hno : (match t with
            | .plainObj (.objectData _) _ _ _ => false
            | _ => true) = true)
    (h : tagBundle r t = .ok b) : hasKey b "text/plain" = true := by
  cases t with
  | errorObj stack toStr n m =>
    cases stack with
    | error u => simp [tagBundle] at h
    | ok st =>
      cases st with
      | none =>
        cases toStr with
        | error u => simp [tagBundle] at h
        | ok t =>
          simp only [tagBundle, Except.ok.injEq] at h
          subst h; simp [hasKey]
      | some s =>
        by_cases hs : s = ""
        · simp only [tagBundle, if_pos hs] at h
          cases toStr with
          | error u => exact absurd h (by simp)
          | ok t =>
            simp only [Except.ok.injEq] at h
            subst h; simp [hasKey]
        · simp only [tagBundle, if_neg hs, Except.ok.injEq] at h
          subst h; simp [hasKey]
  | dateObj iso =>
    cases iso with
    | error u => simp [tagBundle] at h
    | ok i =>
      simp only [tagBundle, Except.ok.injEq] at h
      subst h; simp [hasKey]
  | regexpObj reprText =>
    simp only [tagBundle, Except.ok.injEq] at h
    subst h; simp [hasKey]
  | mapObj size et =>
    cases et <;> simp only [tagBundle, Except.ok.injEq] at h <;> subst h <;> simp [hasKey]
  | setObj size it =>
    cases it <;> simp only [tagBundle, Except.ok.injEq] at h <;> subst h <;> simp [hasKey]
  | canvasElem png w hh o =>
    cases png <;> simp only [tagBundle, Except.ok.injEq] at h <;> subst h <;> simp [hasKey]
  | domElem o =>
    simp only [tagBundle, Except.ok.injEq] at h
    subst h; simp [hasKey]
  | arrayObj len pv =>
    cases pv <;> simp only [tagBundle, Except.ok.injEq] at h <;> subst h <;> simp [hasKey]
  | typedArrayObj c len =>
    simp only [tagBundle, Except.ok.injEq] at h
    subst h; simp [hasKey]
  | promiseObj =>
    simp only [tagBundle, Except.ok.injEq] at h
    subst h; simp [hasKey]
  | plainObj ds pv c n =>
    cases ds with
    | getterThrows => simp [tagBundle] at h
    | objectData bd => simp at hno
    | absent =>
      cases pv <;> simp only [tagBundle, Except.ok.injEq] at h <;> subst h <;> simp [hasKey]
    | nonObject =>
      cases pv <;> simp only [tagBundle, Except.ok.injEq] at h <;> subst h <;> simp [hasKey]

theorem getCustomMimeBundle_some_textPlain (hk : HookSet)
    (sc : Except Unit String) (c : Bundle)
    (hm : (match hk.toMime with | .fnReturnsBundle _ => false | _ => true) = true)
    (h : getCustomMimeBundle hk sc = .ok (some c)) : hasKey c "text/plain" = true := by
  have chain : ∀ st : Bundle × Bool,
      ((probeStrHook hk.toHtml "text/html" st).bind fun st =>
        (probeStrHook hk.toSvg "image/svg+xml" st).bind fun st =>
        (probeStrHook hk.toPng "image/png" st).bind fun st =>
        (probeStrHook hk.toJpeg "image/jpeg" st).bind fun st =>
        (probeStrHook hk.toMarkdown "text/markdown" st).bind fun st =>
        (probeStrHook hk.toLatex "text/latex" st).bind fun st =>
        (if st.2 then
          match hk.inspectHook with
          | .getterThrows => .error ()
          | .fnReturns s => .ok (some (setKey st.1 "text/plain" s))
          | _ => strConvFallback st.1 sc
        else .ok none)) = .ok (some c) → hasKey c "text/plain" = true := by
    intro st hchain
    cases e1 : probeStrHook hk.toHtml "text/html" st with
    | error u => rw [e1, exceptBindErr] at hchain; exact absurd hchain (by simp)
    | ok s1 =>
    rw [e1, exceptBindOk] at hchain
    cases e2 : probeStrHook hk.toSvg "image/svg+xml" s1 with
    | error u => rw [e2, exceptBindErr] at hchain; exact absurd hchain (by simp)
    | ok s2 =>
    rw [e2, exceptBindOk] at hchain
    cases e3 : probeStrHook hk.toPng "image/png" s2 with
    | error u => rw [e3, exceptBindErr] at hchain; exact absurd hchain (by simp)
    | ok s3 =>
    rw [e3, exceptBindOk] at hchain
    cases e4 : probeStrHook hk.toJpeg "image/jpeg" s3 with
    | error u => rw [e4, exceptBindErr] at hchain; exact absurd hchain (by simp)
    | ok s4 =>
    rw [e4, exceptBindOk] at hchain
    cases e5 : probeStrHook hk.toMarkdown "text/markdown" s4 with
    | error u => rw [e5, exceptBindErr] at hchain; exact absurd hchain (by simp)
    | ok s5 =>
    rw [e5, exceptBindOk] at hchain
    cases e6 : probeStrHook hk.toLatex "text/latex" s5 with
    | error u => rw [e6, exceptBindErr] at hchain; exact absurd hchain (by simp)
    | ok s6 =>
    rw [e6, exceptBindOk] at hchain
    by_cases h6 : s6.2
    · rw [if_pos h6] at hchain
      cases hins : hk.inspectHook with
      | getterThrows => rw [hins] at hchain; exact absurd hchain (by simp)
      | fnReturns s =>
        rw [hins] at hchain
        simp only [Except.ok.injEq, Option.some.injEq] at hchain
        subst hchain
        exact setKey_hasKey _ _ _
      | absent =>
        rw [hins] at hchain
        cases sc with
        | error u => exact absurd hchain (by simp [strConvFallback])
        | ok r =>
          simp only [strConvFallback, Except.ok.injEq, Option.some.injEq] at hchain
          subst hchain
          exact setKey_hasKey _ _ _
      | fnThrows =>
        rw [hins] at hchain
        cases sc with
        | error u => exact absurd hchain (by simp [strConvFallback])
        | ok r =>
          simp only [strConvFallback, Except.ok.injEq, Option.some.injEq] at hchain
          subst hchain
          exact setKey_hasKey _ _ _
    · rw [if_neg h6] at hchain
      exact absurd hchain (by simp)
  unfold getCustomMimeBundle at h
  cases hm2 : hk.toMime with
  | getterThrows => rw [hm2] at h; exact absurd h (by simp)
  | fnReturnsBundle b => rw [hm2] at hm; simp at hm
  | absent => rw [hm2] at h; exact chain ([], false) h
  | fnThrows => rw [hm2] at h; exact chain ([], false) h
  | fnReturnsNonObject => rw [hm2] at h; exact chain ([], false) h

end JSKernel

namespace JSKernel

/-- C5 counterexample: a bundle returned verbatim by a toMime hook is not
completed with a text/plain entry. -/
theorem getMimeBundle_toMime_no_textPlain :
    getMimeBundle (.vObject ⟨{ noHooks with toMime := .fnReturnsBundle [("text/html", "x")] },
        .ok "[object Object]", "[object Object]",
        .plainObj .absent (.ok "preview") "Object" 0⟩)
      = .ok [("text/html", "x")]
    ∧ hasKey [("text/html", "x")] "text/plain" = false := by
  exact ⟨rfl, rfl⟩

/-- C5 (amended): every bundle getMimeBundle produces contains the key
text/plain, except a bundle adopted verbatim from the value itself: one
returned by a toMime hook or unwrapped from an object-typed data field. -/
theorem getMimeBundle_textPlain (v : JSVal) (b : Bundle)
    (hnv : noVerbatimBundle v = true) (h : getMimeBundle v = .ok b) :
    hasKey b "text/plain" = true := by
  cases v with
  | vNull =>
    simp only [getMimeBundle, Except.ok.injEq] at h
    subst h; rfl
  | vUndefined =>
    simp only [getMimeBundle, Except.ok.injEq] at h
    subst h; rfl
  | vNumber r =>
    simp only [getMimeBundle, Except.ok.injEq] at h
    subst h; simp [hasKey]
  | vBool bb =>
    simp only [getMimeBundle, Except.ok.injEq] at h
    subst h; simp [hasKey]
  | vSymbol r =>
    simp only [getMimeBundle, Except.ok.injEq] at h
    subst h; simp [hasKey]
  | vBigInt d =>
    simp only [getMimeBundle, Except.ok.injEq] at h
    subst h; simp [hasKey]
  | vFunction name src hooks =>
    simp only [getMimeBundle, Except.ok.injEq] at h
    subst h; simp [hasKey, functionBundle]
  | vString s =>
    simp only [getMimeBundle] at h
    split at h <;> simp only [Except.ok.injEq] at h <;> subst h <;> simp [hasKey]
  | vObject o =>
    simp only [noVerbatimBundle, Bool.and_eq_true] at hnv
    obtain ⟨hm, htag⟩ := hnv
    simp only [getMimeBundle] at h
    cases hc : getCustomMimeBundle o.hooks o.strConv with
    | error u => rw [hc, exceptBindErr] at h; exact absurd h (by simp)
    | ok custom =>
      rw [hc, exceptBindOk] at h
      cases custom with
      | some cb =>
        simp only [Except.ok.injEq] at h
        subst h
        exact getCustomMimeBundle_some_textPlain o.hooks o.strConv cb hm hc
      | none =>
        exact tagBundle_textPlain o.strRepr o.tag b htag h

theorem getMimeBundle_textPlain_witness :
    getMimeBundle (.vObject ⟨{ noHooks with toHtml := .fnReturnsString "h" },
        .ok "[object Object]", "[object Object]",
        .plainObj .absent (.ok "preview") "Object" 0⟩)
      = .ok [("text/html", "h"), ("text/plain", "[object Object]")]
    ∧ hasKey [("text/html", "h"), ("text/plain", "[object Object]")] "text/plain" = true :=
  ⟨rfl,
   getMimeBundle_textPlain
     (.vObject ⟨{ noHooks with toHtml := .fnReturnsString "h" },
        .ok "[object Object]", "[object Object]",
        .plainObj .absent (.ok "preview") "Object" 0⟩)
     [("text/html", "h"), ("text/plain", "[object Object]")] rfl rfl⟩

end JSKernel

namespace JSKernel

/-- C10: with no display callback installed, every display method stores
its produced bundle as the stored result, which getResult then returns,
and no callback invocation happens; with a callback installed, every
display goes to the callback (via _sendDisplay) and the state, including
the stored result, is unchanged; clearResult resets the stored result. -/
theorem displayHelper_spec (st : DisplayHelperState) :
    (st.hasDisplayCallback = false →
      ∀ (content b64 : String) (bundle : Bundle)
        (md : Option (List (String × String))) (stringify : String → String),
        (getResult (helperHtml st content md).1
            = some [("text/html", content), ("text/plain", content)]
          ∧ (helperHtml st content md).2 = none)
        ∧ (getResult (helperSvg st content md).1
            = some [("image/svg+xml", content), ("text/plain", "[SVG Image]")]
          ∧ (helperSvg st content md).2 = none)
        ∧ (getResult (helperPng st b64 md).1
            = some [("image/png", b64), ("text/plain", "[PNG Image]")]
          ∧ (helperPng st b64 md).2 = none)
        ∧ (getResult (helperJpeg st b64 md).1
            = some [("image/jpeg", b64), ("text/plain", "[JPEG Image]")]
          ∧ (helperJpeg st b64 md).2 = none)
        ∧ (getResult (helperText st content md).1 = some [("text/plain", content)]
          ∧ (helperText st content md).2 = none)
        ∧ (getResult (helperMarkdown st content md).1
            = some [("text/markdown", content), ("text/plain", content)]
          ∧ (helperMarkdown st content md).2 = none)
        ∧ (getResult (helperLatex st content md).1
            = some [("text/latex", content), ("text/plain", content)]
          ∧ (helperLatex st content md).2 = none)
        ∧ (getResult (helperJson stringify st content md).1
            = some [("application/json", content), ("text/plain", stringify content)]
          ∧ (helperJson stringify st content md).2 = none)
        ∧ (getResult (helperMime st bundle md).1 = some bundle
          ∧ (helperMime st bundle md).2 = none))
    ∧ (st.hasDisplayCallback = true →
      ∀ (data : Bundle) (md : Option (List (String × String))),
        (sendDisplay st data md).1 = st
        ∧ (sendDisplay st data md).2 ≠ none)
    ∧ getResult (clearResult st) = none := by
  refine ⟨?_, ?_, rfl⟩
  · intro hcb content b64 bundle md stringify
    simp [helperHtml, helperSvg, helperPng, helperJpeg, helperText, helperMarkdown,
      helperLatex, helperJson, helperMime, sendDisplay, getResult, hcb]
  · intro hcb data md
    simp [sendDisplay, hcb]

theorem displayHelper_spec_witness :
    (getResult (helperText ⟨false, none, none⟩ "hi" none).1 = some [("text/plain", "hi")]
      ∧ (helperText ⟨false, none, none⟩ "hi" none).2 = none)
    ∧ (sendDisplay ⟨true, none, some [("text/plain", "old")]⟩ [("text/plain", "new")] none).1
        = ⟨true, none, some [("text/plain", "old")]⟩
    ∧ getResult (clearResult ⟨false, none, some [("text/plain", "x")]⟩) = none :=
  ⟨((displayHelper_spec ⟨false, none, none⟩).1 rfl "hi" "b" [] none id).2.2.2.2.1,
   ((displayHelper_spec ⟨true, none, some [("text/plain", "old")]⟩).2.1 rfl
      [("text/plain", "new")] none).1,
   (displayHelper_spec ⟨false, none, some [("text/plain", "x")]⟩).2.2⟩

end JSKernel
